import Mathlib

/-!
Verification of the Vibetracker streak engine and task synchronizer.

Shallow embedding of the repository's core logic:

* `src/lib/streak.ts` — pure streak computation over UTC calendar days
  (`toUtcDateStr`, `subtractDays`, `computeStreak`, `filterCompleted`);
* `src/hooks/useTasks.ts` — the optimistic task synchronizer
  (`addTask`, `updateTask`, `deleteTask`, `toggleComplete`, the realtime
  payload handler, and the derived `streak`);
* `src/components/AddTaskForm.tsx` — `handleSubmit` title validation.

Modelling conventions:

* A JavaScript instant (`Date`, ISO timestamp string) is its epoch value in
  milliseconds, an `Int`.  The runtime's `Date` arithmetic is proleptic
  Gregorian over those milliseconds; we embed the calendar part as
  `civilFromDays` / `daysFromCivil` (the standard civil-from-days and
  days-from-civil algorithms, which compute exactly what ECMAScript's
  `Date.prototype.toISOString` and `MakeDay` compute).
* A `"YYYY-MM-DD"` UTC date key is its year/month/day triple `Ymd`; for the
  dates the program manipulates, the ISO rendering of a triple is
  injective, so string equality coincides with `Ymd` equality.
* The JavaScript `Set` of date keys is the underlying list of keys;
  membership (`Set.has`) is list membership, which agrees with membership
  in the deduplicated set.
* Division on `Int` below is Lean's `/` (`Int.ediv`), which for the
  positive divisors used here is floor division, matching ECMAScript's
  floor-based day arithmetic.
* Asynchronous store calls appear as explicit reply parameters: each
  operation takes the reply of the one store call it awaits and applies
  its optimistic step, then its confirm/rollback step, to the state; a
  branch that never inspects the reply is a branch that never issues the
  call.
-/

namespace Vibetracker

/-- A UTC calendar day, standing for the `"YYYY-MM-DD"` date-key string of
`streak.ts` (`toUtcDateStr`'s output format). -/
structure Ymd where
  year : Int
  month : Int
  day : Int
  deriving DecidableEq, Repr

/-- Gregorian leap-year predicate (as in ECMAScript `DaysInYear`). -/
def isLeap (y : Int) : Prop :=
  (y % 4 = 0 ∧ y % 100 ≠ 0) ∨ y % 400 = 0

instance (y : Int) : Decidable (isLeap y) := by
  unfold isLeap; infer_instance

/-- Number of days in a month of the proleptic Gregorian calendar. -/
def daysInMonth (y m : Int) : Int :=
  if m = 2 then (if isLeap y then 29 else 28)
  else if m = 4 ∨ m = 6 ∨ m = 9 ∨ m = 11 then 30
  else 31

/-- A `Ymd` that denotes an actual calendar day (hence an actual
`"YYYY-MM-DD"` key). -/
def Ymd.Valid (d : Ymd) : Prop :=
  1 ≤ d.month ∧ d.month ≤ 12 ∧ 1 ≤ d.day ∧ d.day ≤ daysInMonth d.year d.month

instance (d : Ymd) : Decidable d.Valid := by
  unfold Ymd.Valid; infer_instance

/-- Days since the epoch 1970-01-01 of a civil date (what ECMAScript
`MakeDay` computes; Hinnant's `days_from_civil`). -/
def daysFromCivil (d : Ymd) : Int :=
  let y : Int := if d.month ≤ 2 then d.year - 1 else d.year
  let era : Int := y / 400
  let yoe : Int := y - era * 400
  let mp : Int := if d.month ≥ 3 then d.month - 3 else d.month + 9
  let doy : Int := (153 * mp + 2) / 5 + d.day - 1
  let doe : Int := yoe * 365 + yoe / 4 - yoe / 100 + doy
  era * 146097 + doe - 719468

/-- Civil date of a days-since-epoch count (what ECMAScript
`YearFromTime`/`MonthFromTime`/`DateFromTime` compute; Hinnant's
`civil_from_days`). -/
def civilFromDays (z0 : Int) : Ymd :=
  let z : Int := z0 + 719468
  let era : Int := z / 146097
  let doe : Int := z - era * 146097
  let yoe : Int := (doe - doe / 1460 + doe / 36524 - doe / 146096) / 365
  let y : Int := yoe + era * 400
  let doy : Int := doe - (365 * yoe + yoe / 4 - yoe / 100)
  let mp : Int := (5 * doy + 2) / 153
  let d : Int := doy - (153 * mp + 2) / 5 + 1
  let m : Int := if mp < 10 then mp + 3 else mp - 9
  ⟨y + (if m ≤ 2 then 1 else 0), m, d⟩

set_option maxHeartbeats 4000000

/-- Year-of-era recovery: within one 400-year era, the quotient formula of
`civilFromDays` lands in `[0, 399]` and leaves a day-of-year in `[0, 365]`. -/
theorem yoe_bounds (doe : Int) (h0 : 0 ≤ doe) (h1 : doe ≤ 146096) :
    0 ≤ (doe - doe / 1460 + doe / 36524 - doe / 146096) / 365
      ∧ (doe - doe / 1460 + doe / 36524 - doe / 146096) / 365 ≤ 399
      ∧ 0 ≤ doe - (365 * ((doe - doe / 1460 + doe / 36524 - doe / 146096) / 365)
            + ((doe - doe / 1460 + doe / 36524 - doe / 146096) / 365) / 4
            - ((doe - doe / 1460 + doe / 36524 - doe / 146096) / 365) / 100)
      ∧ doe - (365 * ((doe - doe / 1460 + doe / 36524 - doe / 146096) / 365)
            + ((doe - doe / 1460 + doe / 36524 - doe / 146096) / 365) / 4
            - ((doe - doe / 1460 + doe / 36524 - doe / 146096) / 365) / 100) ≤ 365 := by
  obtain ⟨b, hb⟩ : ∃ b, doe / 1460 = b := ⟨_, rfl⟩
  obtain ⟨f, hf⟩ : ∃ f, doe / 36524 = f := ⟨_, rfl⟩
  have hb0 : 0 ≤ b := by omega
  have hb1 : b ≤ 100 := by omega
  have hf0 : 0 ≤ f := by omega
  have hf1 : f ≤ 4 := by omega
  rw [hb, hf]
  interval_cases b <;> interval_cases f <;> omega

/-- Year-of-era recovery, inverse direction: the quotient formula of
`civilFromDays` inverts the day-count formula of `daysFromCivil` on any
day-of-year that exists in year `yoe` of the era. -/
theorem yoe_recover (yoe doy doe : Int) (h0 : 0 ≤ yoe) (h1 : yoe ≤ 399)
    (h2 : 0 ≤ doy)
    (h3 : doy ≤ 364 ∨ (doy = 365 ∧ (((yoe + 1) % 4 = 0 ∧ (yoe + 1) % 100 ≠ 0) ∨ yoe = 399)))
    (hd : doe = 365 * yoe + yoe / 4 - yoe / 100 + doy) :
    (doe - doe / 1460 + doe / 36524 - doe / 146096) / 365 = yoe := by
  obtain ⟨b, hb⟩ : ∃ b, yoe / 4 = b := ⟨_, rfl⟩
  obtain ⟨f, hf⟩ : ∃ f, yoe / 100 = f := ⟨_, rfl⟩
  have hb0 : 0 ≤ b := by omega
  have hb1 : b ≤ 99 := by omega
  have hf0 : 0 ≤ f := by omega
  have hf1 : f ≤ 3 := by omega
  obtain ⟨r, hr⟩ : ∃ r, yoe % 4 = r := ⟨_, rfl⟩
  have hr0 : 0 ≤ r := by omega
  have hr1 : r ≤ 3 := by omega
  have hy : yoe = 4 * b + r := by omega
  rw [hb, hf] at hd
  subst hd
  subst hy
  interval_cases b <;> interval_cases r <;> omega

/-- Assembly step for the left-inverse round trip, with every intermediate
value of `civilFromDays` abstracted to a variable. -/
theorem daysFromCivil_assemble (z era doe yoe doy mp d m : Int)
    (hera : era = (z + 719468) / 146097)
    (hdoe : doe = z + 719468 - era * 146097)
    (hyoe : yoe = (doe - doe / 1460 + doe / 36524 - doe / 146096) / 365)
    (hdoy : doy = doe - (365 * yoe + yoe / 4 - yoe / 100))
    (hmp : mp = (5 * doy + 2) / 153)
    (hd : d = doy - (153 * mp + 2) / 5 + 1)
    (hm : m = if mp < 10 then mp + 3 else mp - 9) :
    daysFromCivil ⟨yoe + era * 400 + (if m ≤ 2 then 1 else 0), m, d⟩ = z := by
  have key := yoe_bounds doe (by omega) (by omega)
  rw [← hyoe] at key
  rw [← hdoy] at key
  have hera2 : (yoe + era * 400) / 400 = era := by omega
  have hyoe2 : yoe + era * 400 - (yoe + era * 400) / 400 * 400 = yoe := by omega
  simp only [daysFromCivil]
  by_cases hcase : mp < 10
  · rw [if_pos hcase] at hm
    subst hm
    repeat' split
    all_goals simp only [add_zero, Int.add_sub_cancel, Int.sub_add_cancel, hyoe2]
    all_goals omega
  · rw [if_neg hcase] at hm
    subst hm
    repeat' split
    all_goals simp only [add_zero, Int.add_sub_cancel, Int.sub_add_cancel, hyoe2]
    all_goals omega

/-- The conversion `daysFromCivil` is a left inverse of `civilFromDays`. -/
theorem daysFromCivil_civilFromDays (z : Int) :
    daysFromCivil (civilFromDays z) = z := by
  show daysFromCivil ⟨_, _, _⟩ = z
  exact daysFromCivil_assemble z _ _ _ _ _ _ _ rfl rfl rfl rfl rfl rfl rfl

/-- Assembly step for the right-inverse round trip, with every intermediate
value of `daysFromCivil` abstracted to a variable. -/
theorem civilFromDays_assemble (year month day y era yoe mp doy doe : Int)
    (hvm1 : 1 ≤ month) (hvm2 : month ≤ 12)
    (hvd1 : 1 ≤ day) (hvd2 : day ≤ daysInMonth year month)
    (hy : y = if month ≤ 2 then year - 1 else year)
    (hera : era = y / 400)
    (hyoe : yoe = y - era * 400)
    (hmp : mp = if month ≥ 3 then month - 3 else month + 9)
    (hdoy : doy = (153 * mp + 2) / 5 + day - 1)
    (hdoe : doe = yoe * 365 + yoe / 4 - yoe / 100 + doy) :
    civilFromDays (era * 146097 + doe - 719468) = ⟨year, month, day⟩ := by
  simp only [daysInMonth] at hvd2
  interval_cases month <;>
  · norm_num at hy hmp hvd2
    by_cases hL : isLeap year
    · try rw [if_pos hL] at hvd2
      simp only [isLeap] at hL
      have hyoe0 : 0 ≤ yoe := by omega
      have hyoe1 : yoe ≤ 399 := by omega
      have hrec := yoe_recover yoe doy doe hyoe0 hyoe1 (by omega) (by omega) (by omega)
      have hera3 : (era * 146097 + doe - 719468 + 719468) / 146097 = era := by omega
      simp only [civilFromDays]
      rw [hera3]
      have hdoe3 : era * 146097 + doe - 719468 + 719468 - era * 146097 = doe := by omega
      rw [hdoe3, hrec]
      have hdoy3 : doe - (365 * yoe + yoe / 4 - yoe / 100) = doy := by omega
      rw [hdoy3]
      have hmp3 : (5 * doy + 2) / 153 = mp := by omega
      rw [hmp3]
      simp only [Ymd.mk.injEq, hmp]
      norm_num
      omega
    · try rw [if_neg hL] at hvd2
      simp only [isLeap, not_or, not_and_or] at hL
      have hyoe0 : 0 ≤ yoe := by omega
      have hyoe1 : yoe ≤ 399 := by omega
      have hrec := yoe_recover yoe doy doe hyoe0 hyoe1 (by omega) (by omega) (by omega)
      have hera3 : (era * 146097 + doe - 719468 + 719468) / 146097 = era := by omega
      simp only [civilFromDays]
      rw [hera3]
      have hdoe3 : era * 146097 + doe - 719468 + 719468 - era * 146097 = doe := by omega
      rw [hdoe3, hrec]
      have hdoy3 : doe - (365 * yoe + yoe / 4 - yoe / 100) = doy := by omega
      rw [hdoy3]
      have hmp3 : (5 * doy + 2) / 153 = mp := by omega
      rw [hmp3]
      simp only [Ymd.mk.injEq, hmp]
      norm_num
      omega

/-- The conversion `civilFromDays` is a right inverse of `daysFromCivil` on
valid dates. -/
theorem civilFromDays_daysFromCivil (d : Ymd) (h : d.Valid) :
    civilFromDays (daysFromCivil d) = d := by
  obtain ⟨year, month, day⟩ := d
  unfold Ymd.Valid at h
  obtain ⟨h1, h2, h3, h4⟩ := h
  exact civilFromDays_assemble year month day _ _ _ _ _ _ h1 h2 h3 h4
    rfl rfl rfl rfl rfl rfl

/-- The conversion `civilFromDays` is injective. -/
theorem civilFromDays_injective : Function.Injective civilFromDays := by
  intro a b hab
  have ha := daysFromCivil_civilFromDays a
  have hb := daysFromCivil_civilFromDays b
  rw [← ha, ← hb, hab]

/- ── `src/lib/streak.ts` ──────────────────────────────────────────────── -/

/-- The `CompletedTask` record of `streak.ts`, carrying a `completed_at`
instant (ISO string or `Date`; modelled by its epoch milliseconds). -/
structure CompletedTask where
  completed_at : Int
  deriving DecidableEq, Repr

/-- Day number (days since the epoch) of an instant — ECMAScript `Day(t)`,
i.e. `Math.floor(t / msPerDay)`. -/
def dayNumber (t : Int) : Int := t / 86400000

/-- Function `toUtcDateStr`: format an instant as its UTC `"YYYY-MM-DD"`
key (`date.toISOString().slice(0, 10)`), as a `Ymd`. -/
def toUtcDateStr (t : Int) : Ymd := civilFromDays (dayNumber t)

/-- Function `subtractDays`: parse the key at UTC midnight, step back
`days` calendar days (`setUTCDate(getUTCDate() - days)`, i.e. shift the
day count), format back. -/
def subtractDays (dateStr : Ymd) (days : Int) : Ymd :=
  civilFromDays (daysFromCivil dateStr - days)

/-- Step 1 of `computeStreak`: the `completedDays` set of UTC day keys
(the JS `Set` is modelled by its underlying list; `has` is membership). -/
def completedDays (tasks : List CompletedTask) : List Ymd :=
  tasks.map fun t => toUtcDateStr t.completed_at

/-- The backwards-counting `while` loop of `computeStreak` (step 4).  The JS
loop needs no fuel: each iteration moves `cursor` one day back, so it visits
pairwise distinct keys that must all lie in the finite `completedDays`;
hence `completedDays.length` bounds the number of iterations, and
`computeStreak` runs the loop with exactly that fuel. -/
def streakLoop (days : List Ymd) (cursor : Ymd) : Nat → Nat
  | 0 => 0
  | fuel + 1 =>
    if cursor ∈ days then streakLoop days (subtractDays cursor 1) fuel + 1
    else 0

/-- Function `computeStreak` from `streak.ts`: anchor selection on
today/yesterday, then count consecutive days backwards from the anchor. -/
def computeStreak (tasks : List CompletedTask) (now : Int) : Nat :=
  if tasks.length = 0 then 0
  else
    let days := completedDays tasks
    let today := toUtcDateStr now
    let yesterday := subtractDays today 1
    if today ∈ days then streakLoop days today days.length
    else if yesterday ∈ days then streakLoop days yesterday days.length
    else 0

/- ── proof layer for the streak engine ───────────────────────────────── -/

/-- Day numbers of the completion instants (the `completedDays` keys,
transported through the bijection `civilFromDays`). -/
def completedDayNumbers (tasks : List CompletedTask) : List Int :=
  tasks.map fun t => dayNumber t.completed_at

theorem subtractDays_civilFromDays (z days : Int) :
    subtractDays (civilFromDays z) days = civilFromDays (z - days) := by
  unfold subtractDays
  rw [daysFromCivil_civilFromDays]

theorem mem_completedDays (tasks : List CompletedTask) (a : Int) :
    civilFromDays a ∈ completedDays tasks ↔ a ∈ completedDayNumbers tasks := by
  unfold completedDays completedDayNumbers toUtcDateStr
  simp only [List.mem_map]
  constructor
  · rintro ⟨t, ht, he⟩
    exact ⟨t, ht, civilFromDays_injective he⟩
  · rintro ⟨t, ht, he⟩
    exact ⟨t, ht, by rw [he]⟩

theorem streakLoop_le (tasks : List CompletedTask) (a : Int) (n fuel : Nat)
    (h : (a - n : Int) ∉ completedDayNumbers tasks) :
    streakLoop (completedDays tasks) (civilFromDays a) fuel ≤ n := by
  induction n generalizing a fuel with
  | zero =>
    cases fuel with
    | zero => simp [streakLoop]
    | succ fuel =>
      unfold streakLoop
      rw [if_neg]
      rw [mem_completedDays]
      simpa using h
  | succ n ih =>
    cases fuel with
    | zero => simp [streakLoop]
    | succ fuel =>
      unfold streakLoop
      split
      · rw [subtractDays_civilFromDays]
        have hmem : (a - 1 - (n : Int)) ∉ completedDayNumbers tasks := by
          have : a - 1 - (n : Int) = a - ((n : Int) + 1) := by ring
          rw [this]
          simpa using h
        have := ih (a - 1) fuel hmem
        omega
      · omega

theorem streakLoop_ge (tasks : List CompletedTask) (a : Int) (n fuel : Nat)
    (hmem : ∀ i : Nat, i < n → (a - i : Int) ∈ completedDayNumbers tasks)
    (hfuel : n ≤ fuel) :
    n ≤ streakLoop (completedDays tasks) (civilFromDays a) fuel := by
  induction n generalizing a fuel with
  | zero => simp
  | succ n ih =>
    obtain ⟨fuel, rfl⟩ : ∃ f, fuel = f + 1 := ⟨fuel - 1, by omega⟩
    unfold streakLoop
    rw [if_pos]
    · rw [subtractDays_civilFromDays]
      have hrest : n ≤ streakLoop (completedDays tasks) (civilFromDays (a - 1)) fuel := by
        apply ih (a - 1) fuel _ (by omega)
        intro i hi
        have := hmem (i + 1) (by omega)
        have heq : a - ((i : Int) + 1) = a - 1 - (i : Int) := by ring
        push_cast at this
        rw [heq] at this
        exact this
      omega
    · rw [mem_completedDays]
      simpa using hmem 0 (by omega)

theorem run_le_length (S : List Int) (a : Int) (n : Nat)
    (hmem : ∀ i : Nat, i < n → (a - i : Int) ∈ S) : n ≤ S.length := by
  classical
  have hsub : (Finset.range n).image (fun i : Nat => a - (i : Int)) ⊆ S.toFinset := by
    intro x hx
    simp only [Finset.mem_image, Finset.mem_range] at hx
    obtain ⟨i, hi, rfl⟩ := hx
    exact List.mem_toFinset.mpr (hmem i hi)
  have hcard : ((Finset.range n).image (fun i : Nat => a - (i : Int))).card = n := by
    rw [Finset.card_image_of_injective _ (fun i j hij => by omega), Finset.card_range]
  calc n = ((Finset.range n).image (fun i : Nat => a - (i : Int))).card := hcard.symm
    _ ≤ S.toFinset.card := Finset.card_le_card hsub
    _ ≤ S.length := S.toFinset_card_le

/-- Exact characterisation of `computeStreak`: if the anchor day is `a` and
the days `a, a-1, …, a-(n-1)` are completed while `a-n` is not, the result
is `n`. -/
theorem computeStreak_eq_run (tasks : List CompletedTask) (now : Int) (a : Int) (n : Nat)
    (ha : (a = dayNumber now ∧ dayNumber now ∈ completedDayNumbers tasks)
        ∨ (a = dayNumber now - 1 ∧ dayNumber now ∉ completedDayNumbers tasks
            ∧ dayNumber now - 1 ∈ completedDayNumbers tasks))
    (hrun : ∀ i : Nat, i < n → (a - i : Int) ∈ completedDayNumbers tasks)
    (hstop : (a - n : Int) ∉ completedDayNumbers tasks) :
    computeStreak tasks now = n := by
  have hne : tasks.length ≠ 0 := by
    rcases ha with ⟨_, hmem⟩ | ⟨_, _, hmem⟩ <;>
    · intro h
      rw [List.length_eq_zero] at h
      subst h
      simp [completedDayNumbers] at hmem
  have hn_len : n ≤ (completedDays tasks).length := by
    have h1 := run_le_length (completedDayNumbers tasks) a n hrun
    have h2 : (completedDayNumbers tasks).length = (completedDays tasks).length := by
      simp [completedDayNumbers, completedDays]
    omega
  unfold computeStreak
  rw [if_neg hne]
  simp only [toUtcDateStr]
  rcases ha with ⟨rfl, hmem⟩ | ⟨rfl, hnot, hmem⟩
  · rw [if_pos ((mem_completedDays tasks _).mpr hmem)]
    exact le_antisymm (streakLoop_le tasks _ n _ hstop) (streakLoop_ge tasks _ n _ hrun hn_len)
  · rw [if_neg, subtractDays_civilFromDays, if_pos ((mem_completedDays tasks _).mpr hmem)]
    · exact le_antisymm (streakLoop_le tasks _ n _ hstop) (streakLoop_ge tasks _ n _ hrun hn_len)
    · rw [mem_completedDays]
      exact hnot

/-- `computeStreak` is `0` when neither today nor yesterday is completed. -/
theorem computeStreak_zero (tasks : List CompletedTask) (now : Int)
    (h1 : dayNumber now ∉ completedDayNumbers tasks)
    (h2 : dayNumber now - 1 ∉ completedDayNumbers tasks) :
    computeStreak tasks now = 0 := by
  unfold computeStreak
  by_cases hlen : tasks.length = 0
  · rw [if_pos hlen]
  · rw [if_neg hlen]
    simp only [toUtcDateStr]
    rw [if_neg, if_neg]
    · rw [subtractDays_civilFromDays, mem_completedDays]
      exact h2
    · rw [mem_completedDays]
      exact h1

/-- Every anchor has a maximal unbroken run. -/
theorem exists_run_end (S : List Int) (a : Int) :
    ∃ n : Nat, (∀ i : Nat, i < n → (a - i : Int) ∈ S) ∧ (a - n : Int) ∉ S := by
  classical
  have hex : ∃ i : Nat, (a - i : Int) ∉ S := by
    by_contra hall
    push_neg at hall
    have := run_le_length S a (S.length + 1) (fun i _ => hall i)
    omega
  refine ⟨Nat.find hex, fun i hi => ?_, Nat.find_spec hex⟩
  have := Nat.find_min hex hi
  simpa using this

/-- C1: for `n ≥ 1`, completion instants covering exactly the `n`
consecutive UTC days ending on now's UTC day give `computeStreak = n`;
covering exactly the `n` consecutive days ending the day before (with no
completion today) also gives `n` — the anchor is today when today is in
the day set, else yesterday. -/
theorem computeStreak_consecutive (tasks : List CompletedTask) (now : Int) (n : Nat)
    (hn : 1 ≤ n) :
    ((completedDayNumbers tasks).toFinset
        = (Finset.range n).image (fun i : Nat => dayNumber now - (i : Int))
      → computeStreak tasks now = n)
    ∧ ((completedDayNumbers tasks).toFinset
        = (Finset.range n).image (fun i : Nat => dayNumber now - 1 - (i : Int))
      → computeStreak tasks now = n) := by
  constructor
  · intro hcov
    have hmem : ∀ z : Int, z ∈ completedDayNumbers tasks ↔ ∃ i : Nat, i < n ∧ dayNumber now - (i : Int) = z := by
      intro z
      rw [← List.mem_toFinset, hcov]
      simp [Finset.mem_image, Finset.mem_range]
    apply computeStreak_eq_run tasks now (dayNumber now) n
    · exact Or.inl ⟨rfl, (hmem _).mpr ⟨0, by omega, by omega⟩⟩
    · intro i hi
      exact (hmem _).mpr ⟨i, hi, rfl⟩
    · intro hbad
      obtain ⟨i, hi, he⟩ := (hmem _).mp hbad
      omega
  · intro hcov
    have hmem : ∀ z : Int, z ∈ completedDayNumbers tasks ↔ ∃ i : Nat, i < n ∧ dayNumber now - 1 - (i : Int) = z := by
      intro z
      rw [← List.mem_toFinset, hcov]
      simp [Finset.mem_image, Finset.mem_range]
    apply computeStreak_eq_run tasks now (dayNumber now - 1) n
    · refine Or.inr ⟨rfl, ?_, (hmem _).mpr ⟨0, by omega, by omega⟩⟩
      intro hbad
      obtain ⟨i, hi, he⟩ := (hmem _).mp hbad
      omega
    · intro i hi
      exact (hmem _).mpr ⟨i, hi, rfl⟩
    · intro hbad
      obtain ⟨i, hi, he⟩ := (hmem _).mp hbad
      omega

/-- C2: appending any completions whose UTC day is strictly after now's
UTC day never changes `computeStreak` — future-dated completions are
excluded from consideration. -/
theorem computeStreak_ignores_future (tasks future : List CompletedTask) (now : Int)
    (hf : ∀ t ∈ future, dayNumber now < dayNumber t.completed_at) :
    computeStreak (tasks ++ future) now = computeStreak tasks now := by
  classical
  have hfz : ∀ z : Int, z ≤ dayNumber now → z ∉ completedDayNumbers future := by
    intro z hz hmem
    unfold completedDayNumbers at hmem
    simp only [List.mem_map] at hmem
    obtain ⟨t, ht, rfl⟩ := hmem
    exact absurd (hf t ht) (by omega)
  have happ : completedDayNumbers (tasks ++ future)
      = completedDayNumbers tasks ++ completedDayNumbers future := by
    simp [completedDayNumbers]
  by_cases htasks : tasks = []
  · subst htasks
    by_cases hfut : future = []
    · subst hfut
      rfl
    · have hlhs : computeStreak ([] ++ future) now = 0 := by
        rw [List.nil_append]
        apply computeStreak_zero
        · exact hfz _ (by omega)
        · exact hfz _ (by omega)
      rw [hlhs]
      rfl
  · by_cases hanchor : dayNumber now ∈ completedDayNumbers tasks
        ∨ (dayNumber now ∉ completedDayNumbers tasks
            ∧ dayNumber now - 1 ∈ completedDayNumbers tasks)
    · set a : Int := if dayNumber now ∈ completedDayNumbers tasks then dayNumber now
        else dayNumber now - 1 with hadef
      have ha_le : a ≤ dayNumber now := by
        rw [hadef]; split <;> omega
      have ha : (a = dayNumber now ∧ dayNumber now ∈ completedDayNumbers tasks)
          ∨ (a = dayNumber now - 1 ∧ dayNumber now ∉ completedDayNumbers tasks
              ∧ dayNumber now - 1 ∈ completedDayNumbers tasks) := by
        rcases hanchor with h | ⟨h1, h2⟩
        · exact Or.inl ⟨by rw [hadef, if_pos h], h⟩
        · exact Or.inr ⟨by rw [hadef, if_neg h1], h1, h2⟩
      obtain ⟨n, hrun, hstop⟩ := exists_run_end (completedDayNumbers tasks) a
      have hL := computeStreak_eq_run tasks now a n ha hrun hstop
      have hR := computeStreak_eq_run (tasks ++ future) now a n ?ha2 ?hrun2 ?hstop2
      · rw [hL, hR]
      case ha2 =>
        rcases ha with ⟨he, hm⟩ | ⟨he, hm1, hm2⟩
        · refine Or.inl ⟨he, ?_⟩
          rw [happ]
          exact List.mem_append_left _ hm
        · refine Or.inr ⟨he, ?_, ?_⟩
          · rw [happ]
            intro hbad
            rcases List.mem_append.mp hbad with h | h
            · exact hm1 h
            · exact hfz _ (by omega) h
          · rw [happ]
            exact List.mem_append_left _ hm2
      case hrun2 =>
        intro i hi
        rw [happ]
        exact List.mem_append_left _ (hrun i hi)
      case hstop2 =>
        rw [happ]
        intro hbad
        rcases List.mem_append.mp hbad with h | h
        · exact hstop h
        · exact hfz _ (by omega) h
    · push_neg at hanchor
      obtain ⟨h1, h2x⟩ := hanchor
      have h2 : dayNumber now - 1 ∉ completedDayNumbers tasks := fun h => h2x h1 h
      rw [computeStreak_zero tasks now h1 h2]
      apply computeStreak_zero
      · rw [happ]
        intro hbad
        rcases List.mem_append.mp hbad with h | h
        · exact h1 h
        · exact hfz _ (by omega) h
      · rw [happ]
        intro hbad
        rcases List.mem_append.mp hbad with h | h
        · exact h2 h
        · exact hfz _ (by omega) h

/-- C6: a missing UTC day strictly before the anchor truncates the count
to the unbroken tail: when day `g` is missing and every day in the open
interval from `g` up to the anchor is completed, `computeStreak` returns
the tail length `anchor - g`; days before the gap do not contribute. -/
theorem computeStreak_gap (tasks : List CompletedTask) (now : Int) (a g : Int)
    (ha : (a = dayNumber now ∧ dayNumber now ∈ completedDayNumbers tasks)
        ∨ (a = dayNumber now - 1 ∧ dayNumber now ∉ completedDayNumbers tasks
            ∧ dayNumber now - 1 ∈ completedDayNumbers tasks))
    (hg : g < a) (hgap : g ∉ completedDayNumbers tasks)
    (hfill : ∀ z : Int, g < z → z ≤ a → z ∈ completedDayNumbers tasks) :
    computeStreak tasks now = (a - g).toNat := by
  apply computeStreak_eq_run tasks now a ((a - g).toNat) ha
  · intro i hi
    apply hfill <;> omega
  · have he : a - ((a - g).toNat : Int) = g := by omega
    rw [he]
    exact hgap

/-- C7: `computeStreak` of the empty collection is `0`, and the result is
`0` whenever every completion day lies two or more days before now's UTC
day. -/
theorem computeStreak_stale (tasks : List CompletedTask) (now : Int) :
    computeStreak [] now = 0
    ∧ ((∀ z ∈ completedDayNumbers tasks, z ≤ dayNumber now - 2) →
        computeStreak tasks now = 0) := by
  constructor
  · rfl
  · intro h
    apply computeStreak_zero <;> intro hmem <;> have := h _ hmem <;> omega

/- ── C8: true calendar arithmetic ─────────────────────────────────────── -/

/-- The calendar day one day before `d` — follows the spec's words ("the
calendar day `n` days before `dateKey`, correctly handling month/year
rollover"), stepping through month and year boundaries explicitly. -/
def calendarPrevDay (d : Ymd) : Ymd :=
  if 1 < d.day then ⟨d.year, d.month, d.day - 1⟩
  else if 1 < d.month then ⟨d.year, d.month - 1, daysInMonth d.year (d.month - 1)⟩
  else ⟨d.year - 1, 12, 31⟩

theorem calendarPrevDay_valid (d : Ymd) (h : d.Valid) :
    (calendarPrevDay d).Valid := by
  obtain ⟨year, month, day⟩ := d
  unfold Ymd.Valid at h
  obtain ⟨h1, h2, h3, h4⟩ := h
  simp only at h1 h2 h3 h4
  unfold calendarPrevDay Ymd.Valid
  interval_cases month <;>
  · norm_num [daysInMonth, isLeap] at h4 ⊢
    split_ifs at h4 ⊢ <;> (try dsimp only at *) <;> omega

set_option maxHeartbeats 4000000

theorem daysFromCivil_calendarPrevDay (d : Ymd) (h : d.Valid) :
    daysFromCivil (calendarPrevDay d) = daysFromCivil d - 1 := by
  obtain ⟨year, month, day⟩ := d
  unfold Ymd.Valid at h
  obtain ⟨h1, h2, h3, h4⟩ := h
  simp only at h1 h2 h3 h4
  unfold calendarPrevDay daysFromCivil
  interval_cases month <;>
  · norm_num [daysInMonth, isLeap] at h4 ⊢
    split_ifs at h4 ⊢ <;> (try dsimp only at *) <;> (try norm_num) <;> omega

theorem subtractDays_iterate (d : Ymd) (h : d.Valid) (n : Nat) :
    subtractDays d n = calendarPrevDay^[n] d := by
  induction n generalizing d with
  | zero =>
    simp only [Function.iterate_zero, id]
    unfold subtractDays
    rw [Int.natCast_zero, sub_zero, civilFromDays_daysFromCivil d h]
  | succ n ih =>
    have hv : (calendarPrevDay d).Valid := calendarPrevDay_valid d h
    rw [Function.iterate_succ_apply, ← ih (calendarPrevDay d) hv]
    unfold subtractDays
    rw [daysFromCivil_calendarPrevDay d h]
    congr 1
    push_cast
    ring

/-- Helper for concrete scenarios: the instant at 10:00 UTC on a calendar
day (as the unit tests build completions at `T10:00:00Z`). -/
def instantOn (d : Ymd) : Int := daysFromCivil d * 86400000 + 36000000

/-- C8: `subtractDays` performs true calendar arithmetic — on every valid
date key it equals `n` iterations of stepping to the previous calendar
day, handling month and year rollover — and consequently the streak over
2024-12-30 … 2025-01-02 (a year rollover) equals the streak over an
equivalent four-day run with no rollover, namely `4`. -/
theorem subtractDays_true_calendar :
    (∀ (d : Ymd), d.Valid → ∀ n : Nat, subtractDays d n = calendarPrevDay^[n] d)
    ∧ computeStreak
        [⟨instantOn ⟨2024, 12, 30⟩⟩, ⟨instantOn ⟨2024, 12, 31⟩⟩,
          ⟨instantOn ⟨2025, 1, 1⟩⟩, ⟨instantOn ⟨2025, 1, 2⟩⟩] (instantOn ⟨2025, 1, 2⟩)
      = computeStreak
        [⟨instantOn ⟨2025, 6, 7⟩⟩, ⟨instantOn ⟨2025, 6, 8⟩⟩,
          ⟨instantOn ⟨2025, 6, 9⟩⟩, ⟨instantOn ⟨2025, 6, 10⟩⟩] (instantOn ⟨2025, 6, 10⟩)
    ∧ computeStreak
        [⟨instantOn ⟨2024, 12, 30⟩⟩, ⟨instantOn ⟨2024, 12, 31⟩⟩,
          ⟨instantOn ⟨2025, 1, 1⟩⟩, ⟨instantOn ⟨2025, 1, 2⟩⟩] (instantOn ⟨2025, 1, 2⟩) = 4 := by
  refine ⟨subtractDays_iterate, ?_, ?_⟩ <;> decide

/-- C8 witness: a month-rollover instance of the calendar property. -/
theorem subtractDays_true_calendar_witness :
    (⟨2025, 3, 1⟩ : Ymd).Valid
    ∧ subtractDays ⟨2025, 3, 1⟩ ((1 : Nat) : Int) = calendarPrevDay^[1] ⟨2025, 3, 1⟩ :=
  ⟨by decide, subtractDays_true_calendar.1 ⟨2025, 3, 1⟩ (by decide) 1⟩

/-- C1 witness: two consecutive days ending today give streak 2. -/
theorem computeStreak_consecutive_witness :
    computeStreak [⟨instantOn ⟨2025, 1, 14⟩⟩, ⟨instantOn ⟨2025, 1, 15⟩⟩]
      (instantOn ⟨2025, 1, 15⟩) = 2 :=
  (computeStreak_consecutive _ _ 2 (by decide)).1 (by decide)

/-- C2 witness: a future-dated completion does not change the result. -/
theorem computeStreak_ignores_future_witness :
    computeStreak ([⟨instantOn ⟨2025, 1, 15⟩⟩] ++ [⟨instantOn ⟨2025, 1, 16⟩⟩])
        (instantOn ⟨2025, 1, 15⟩)
      = computeStreak [⟨instantOn ⟨2025, 1, 15⟩⟩] (instantOn ⟨2025, 1, 15⟩) :=
  computeStreak_ignores_future _ _ _ (by decide)

/-- C6 witness: the spec's scenario B — gap on 2025-01-13, `now` at noon on
2025-01-15, streak 2. -/
theorem computeStreak_gap_witness :
    computeStreak [⟨instantOn ⟨2025, 1, 11⟩⟩, ⟨instantOn ⟨2025, 1, 12⟩⟩,
        ⟨instantOn ⟨2025, 1, 14⟩⟩, ⟨instantOn ⟨2025, 1, 15⟩⟩]
      (86400000 * 20103 + 43200000) = 2 := by
  have h := computeStreak_gap
    [⟨instantOn ⟨2025, 1, 11⟩⟩, ⟨instantOn ⟨2025, 1, 12⟩⟩,
      ⟨instantOn ⟨2025, 1, 14⟩⟩, ⟨instantOn ⟨2025, 1, 15⟩⟩]
    (86400000 * 20103 + 43200000) 20103 20101
    (Or.inl ⟨by decide, by decide⟩) (by decide) (by decide)
    (by intro z h1 h2; interval_cases z <;> decide)
  rw [h]
  decide

/-- C7 witness: last completion two days before `now` gives streak 0. -/
theorem computeStreak_stale_witness :
    computeStreak [⟨instantOn ⟨2025, 1, 13⟩⟩] (instantOn ⟨2025, 1, 15⟩) = 0 :=
  (computeStreak_stale [⟨instantOn ⟨2025, 1, 13⟩⟩] (instantOn ⟨2025, 1, 15⟩)).2 (by decide)

/- ── `src/lib/supabaseClient.ts`: the Task row ────────────────────────── -/

/-- The `Task` row type.  `status` is one of `"todo" | "inprogress" |
"done"` and `priority` one of `"low" | "medium" | "high"`; timestamps are
instants (epoch milliseconds), `due_date` is an uninterpreted date string. -/
structure Task where
  id : String
  user_id : String
  title : String
  description : Option String
  status : String
  priority : String
  due_date : Option String
  completed_at : Option Int
  created_at : Int
  deriving DecidableEq, Repr

/-- Function `filterCompleted` from `streak.ts`: tasks with
`status === "done"` and non-null `completed_at`, projected to their
completion instants (the `filterMap` realises the non-null cast of the
source's `.map`). -/
def filterCompleted (tasks : List Task) : List CompletedTask :=
  (tasks.filter fun t => t.status == "done" && t.completed_at.isSome).filterMap
    fun t => t.completed_at.map fun c => ⟨c⟩

/- ── `src/hooks/useTasks.ts`: the task synchronizer ───────────────────── -/

/-- The `NewTask` input of `useTasks.ts` (optional fields absent = `none`;
`due_date`, when present, may itself be `null`). -/
structure NewTask where
  title : String
  description : Option String := none
  priority : Option String := none
  due_date : Option (Option String) := none
  deriving DecidableEq, Repr

/-- The hook state relevant to the synchronizer: the `tasks` list and the
`error` signal.  (`loading` and the store/channel handles carry no
task-list information.)  Store calls appear as explicit reply parameters:
each operation takes the reply of the one store call it awaits, and a
branch that never inspects the reply is a branch that never issues the
call. -/
structure SyncState where
  tasks : List Task
  error : Option String
  deriving DecidableEq, Repr

/-- The `streak` the hook derives on every render:
`computeStreak(filterCompleted(tasks))`; `now` stands for the `new Date()`
default argument of `computeStreak`. -/
def hookStreak (tasks : List Task) (now : Int) : Nat :=
  computeStreak (filterCompleted tasks) now

/-- The data/error pair returned by the awaited store insert. -/
structure InsertResult where
  data : Option Task
  error : Option String
  deriving DecidableEq, Repr

/-- Operation `addTask`: no-op without a user; otherwise optimistic insert
of a temp task, then rollback (filter the temp id out, set the error) on a
failed or empty reply, or replacement of the temp entry by the confirmed
row.  `tempId` stands for the generated temp-(Date.now()) id and `nowMs`
for `new Date().toISOString()`. -/
def addTask (userId : Option String) (tempId : String) (nowMs : Int)
    (newTask : NewTask) (reply : InsertResult) (s : SyncState) : SyncState :=
  match userId with
  | none => s
  | some uid =>
    let optimistic : Task :=
      { id := tempId
        user_id := uid
        title := newTask.title
        description := newTask.description
        status := "todo"
        priority := newTask.priority.getD "medium"
        due_date := newTask.due_date.getD none
        completed_at := none
        created_at := nowMs }
    let afterOptimistic : List Task := optimistic :: s.tasks
    match reply.error, reply.data with
    | some msg, _ =>
        { tasks := afterOptimistic.filter fun t => t.id != tempId
          error := some msg }
    | none, none =>
        { tasks := afterOptimistic.filter fun t => t.id != tempId
          error := some "Failed to add task" }
    | none, some confirmed =>
        { tasks := afterOptimistic.map fun t => if t.id = tempId then confirmed else t
          error := s.error }

/-- The `Partial<Task>` update payload, restricted to the store's `Update`
row type (`Partial<Omit<Task, "id" | "created_at">>`): each updatable
field optionally present. -/
structure TaskUpdate where
  user_id : Option String := none
  title : Option String := none
  description : Option (Option String) := none
  status : Option String := none
  priority : Option String := none
  due_date : Option (Option String) := none
  completed_at : Option (Option Int) := none
  deriving DecidableEq, Repr

/-- The object spread of `updates` over `t` (spread syntax in the source's
optimistic update). -/
def applyUpdate (t : Task) (u : TaskUpdate) : Task :=
  { t with
    user_id := u.user_id.getD t.user_id
    title := u.title.getD t.title
    description := u.description.getD t.description
    status := u.status.getD t.status
    priority := u.priority.getD t.priority
    due_date := u.due_date.getD t.due_date
    completed_at := u.completed_at.getD t.completed_at }

/-- Operation `updateTask`: no-op when the id is absent (no store call is
issued); otherwise optimistic in-place update, with rollback to the
snapshot `previous` and an error on store failure (`reply = some msg`). -/
def updateTask (id : String) (updates : TaskUpdate) (reply : Option String)
    (s : SyncState) : SyncState :=
  match s.tasks.find? (fun t => t.id == id) with
  | none => s
  | some previous =>
    let afterOptimistic :=
      s.tasks.map fun t => if t.id = id then applyUpdate t updates else t
    match reply with
    | some msg =>
        { tasks := afterOptimistic.map fun t => if t.id = id then previous else t
          error := some msg }
    | none => { s with tasks := afterOptimistic }

/-- Operation `deleteTask`: no-op when the id is absent; otherwise
optimistic removal, and on failure the snapshot is re-inserted at the
*front* (`[previous, ...prev]`) with the error set. -/
def deleteTask (id : String) (reply : Option String) (s : SyncState) : SyncState :=
  match s.tasks.find? (fun t => t.id == id) with
  | none => s
  | some previous =>
    let afterOptimistic := s.tasks.filter fun t => t.id != id
    match reply with
    | some msg => { tasks := previous :: afterOptimistic, error := some msg }
    | none => { s with tasks := afterOptimistic }

/-- Operation `toggleComplete`: flip between todo/done, setting
`completed_at` to the current instant on completion and clearing it
otherwise (sugar over `updateTask`). -/
def toggleComplete (task : Task) (nowMs : Int) (reply : Option String)
    (s : SyncState) : SyncState :=
  updateTask task.id
    { status := some (if task.status = "done" then "todo" else "done")
      completed_at := some (if task.status = "done" then none else some nowMs) }
    reply s

/-- The realtime `postgres_changes` payloads (insert/update carry the new
row, delete carries the old row's id). -/
inductive RealtimePayload where
  | insert (newTask : Task)
  | update (updated : Task)
  | delete (id : String)
  deriving DecidableEq, Repr

/-- The realtime subscription handler: insert only when the id is absent
(dedup against the optimistic copy), update replaces by id wholesale,
delete filters by id. -/
def applyRealtimeEvent (p : RealtimePayload) (prev : List Task) : List Task :=
  match p with
  | .insert newTask =>
      if prev.any (fun t => t.id == newTask.id) then prev else newTask :: prev
  | .update updated => prev.map fun t => if t.id = updated.id then updated else t
  | .delete id => prev.filter fun t => t.id != id

/- ── `src/components/AddTaskForm.tsx` ─────────────────────────────────── -/

/-- The form fields `handleSubmit` reads and writes. -/
structure FormState where
  title : String
  priority : Option String
  dueDate : String
  validationError : String
  deriving DecidableEq, Repr

/-- JavaScript `String.prototype.trim`: strip leading and trailing
whitespace. -/
def jsTrim (s : String) : String :=
  ⟨((s.data.dropWhile Char.isWhitespace).reverse.dropWhile Char.isWhitespace).reverse⟩

/-- Form handler `handleSubmit`: trims the title, rejects an empty or
over-long title by setting `validationError` and returning before `onAdd`;
otherwise clears the error and yields the `NewTask` passed to `onAdd`
(`dueDate || null`).  (`.length` counts characters, as the source's UTF-16
length does for the basic plane.) -/
def handleSubmit (f : FormState) : FormState × Option NewTask :=
  let trimmed := jsTrim f.title
  if trimmed = "" then
    ({ f with validationError := "Task title is required." }, none)
  else if 280 < trimmed.length then
    ({ f with validationError := "Title must be 280 characters or fewer." }, none)
  else
    ({ f with validationError := "" },
      some { title := trimmed
             priority := f.priority
             due_date := some (if f.dueDate = "" then none else some f.dueDate) })

/-- The create pipeline: the form submit followed, only when a task intent
is produced, by the hook's `addTask` — the sole site of optimistic
mutation and of the store insert call. -/
def submitCreate (f : FormState) (userId : Option String) (tempId : String)
    (nowMs : Int) (reply : InsertResult) (s : SyncState) : FormState × SyncState :=
  match handleSubmit f with
  | (f2, none) => (f2, s)
  | (f2, some nt) => (f2, addTask userId tempId nowMs nt reply s)


/- ── synchronizer claim theorems ──────────────────────────────────────── -/

/-- Ids are pairwise distinct, so two tasks of the list with the same id
are the same task. -/
theorem eq_of_mem_of_nodup_ids {l : List Task} (h : (l.map Task.id).Nodup)
    {t u : Task} (ht : t ∈ l) (hu : u ∈ l) (he : t.id = u.id) : t = u :=
  List.inj_on_of_nodup_map h ht hu he

theorem applyUpdate_id (t : Task) (u : TaskUpdate) : (applyUpdate t u).id = t.id := rfl

/-- C4: remote change-feed absorption is idempotent — applying the same
insert/update/delete payload twice yields the same list as applying it
once — and an insert applied to a list with duplicate-free ids never
produces two tasks with the same id, because an insert is applied only
when no task with that id exists locally. -/
theorem applyRealtimeEvent_idempotent :
    (∀ (p : RealtimePayload) (l : List Task),
        applyRealtimeEvent p (applyRealtimeEvent p l) = applyRealtimeEvent p l)
    ∧ ∀ (nt : Task) (l : List Task), (l.map Task.id).Nodup →
        ((applyRealtimeEvent (.insert nt) l).map Task.id).Nodup := by
  constructor
  · intro p l
    cases p with
    | insert nt =>
      by_cases h : l.any (fun t => t.id == nt.id)
      · simp [applyRealtimeEvent, h]
      · simp only [applyRealtimeEvent, if_neg h]
        rw [if_pos]
        simp
    | update u =>
      simp only [applyRealtimeEvent, List.map_map]
      apply List.map_congr_left
      intro t _
      by_cases h : t.id = u.id <;> simp [h]
    | delete id =>
      simp only [applyRealtimeEvent]
      rw [List.filter_filter]
      simp
  · intro nt l h
    by_cases hmem : l.any (fun t => t.id == nt.id)
    · simpa [applyRealtimeEvent, hmem] using h
    · simp only [applyRealtimeEvent, if_neg hmem, List.map_cons]
      refine List.nodup_cons.mpr ⟨?_, h⟩
      intro hbad
      obtain ⟨t, ht, he⟩ := List.mem_map.mp hbad
      exact absurd (List.any_eq_true.mpr ⟨t, ht, by simp [he]⟩) hmem

/-- C4 witness: inserting into a duplicate-free list keeps ids
duplicate-free. -/
theorem applyRealtimeEvent_idempotent_witness :
    ((applyRealtimeEvent
        (.insert ⟨"t1", "u1", "Sample", none, "todo", "medium", none, none, 0⟩)
        []).map Task.id).Nodup :=
  applyRealtimeEvent_idempotent.2
    ⟨"t1", "u1", "Sample", none, "todo", "medium", none, none, 0⟩ [] (by decide)

/-- C10: `updateTask` and `deleteTask` on an id not present in the local
list are no-ops: the state (task list and error signal) is unchanged and
the result does not depend on the store reply, so no store call is
observable. -/
theorem update_delete_missing_id (s : SyncState) (id : String)
    (h : ∀ t ∈ s.tasks, t.id ≠ id) :
    (∀ (updates : TaskUpdate) (reply : Option String),
        updateTask id updates reply s = s)
    ∧ (∀ reply : Option String, deleteTask id reply s = s) := by
  have hfind : s.tasks.find? (fun t => t.id == id) = none := by
    rw [List.find?_eq_none]
    intro t ht
    simpa using h t ht
  constructor
  · intro updates reply
    unfold updateTask
    rw [hfind]
  · intro reply
    unfold deleteTask
    rw [hfind]

/-- C10 witness: operations on an id that is not in the list change
nothing, whatever the store would have replied. -/
theorem update_delete_missing_id_witness :
    updateTask "zzz" {} (some "boom")
        ⟨[⟨"t1", "u1", "Sample", none, "todo", "medium", none, none, 0⟩], none⟩
      = ⟨[⟨"t1", "u1", "Sample", none, "todo", "medium", none, none, 0⟩], none⟩
    ∧ deleteTask "zzz" (some "boom")
        ⟨[⟨"t1", "u1", "Sample", none, "todo", "medium", none, none, 0⟩], none⟩
      = ⟨[⟨"t1", "u1", "Sample", none, "todo", "medium", none, none, 0⟩], none⟩ :=
  ⟨(update_delete_missing_id _ "zzz" (by decide)).1 {} (some "boom"),
    (update_delete_missing_id _ "zzz" (by decide)).2 (some "boom")⟩

/-- C5: a create intent whose title is invalid (empty after trimming, or
longer than 280 characters) is rejected in `handleSubmit` before any
optimistic mutation of the task list and before any store call — the
synchronizer state is unchanged whatever the store would have replied and
no `NewTask` reaches `addTask` — and the validation error is reported
synchronously. -/
theorem addTask_validation (f : FormState) (userId : Option String)
    (tempId : String) (nowMs : Int) (s : SyncState)
    (hbad : jsTrim f.title = "" ∨ 280 < (jsTrim f.title).length) :
    ∀ reply : InsertResult,
      (submitCreate f userId tempId nowMs reply s).2 = s
      ∧ (submitCreate f userId tempId nowMs reply s).1.validationError ≠ ""
      ∧ (handleSubmit f).2 = none := by
  intro reply
  unfold submitCreate handleSubmit
  rcases hbad with h | h
  · rw [if_pos h]
    exact ⟨rfl, by show ("Task title is required." ≠ ""); decide, rfl⟩
  · rw [if_neg (by intro he; rw [he] at h; simp at h), if_pos h]
    exact ⟨rfl, by show ("Title must be 280 characters or fewer." ≠ ""); decide, rfl⟩

/-- C5 witness: the empty title is rejected with no state change. -/
theorem addTask_validation_witness :
    (submitCreate ⟨"   ", none, "", ""⟩ (some "u1") "temp-1" 0 ⟨none, none⟩
        ⟨[], none⟩).2 = ⟨[], none⟩
    ∧ (submitCreate ⟨"   ", none, "", ""⟩ (some "u1") "temp-1" 0 ⟨none, none⟩
        ⟨[], none⟩).1.validationError ≠ ""
    ∧ (handleSubmit ⟨"   ", none, "", ""⟩).2 = none :=
  addTask_validation ⟨"   ", none, "", ""⟩ (some "u1") "temp-1" 0 ⟨[], none⟩
    (Or.inl (by decide)) ⟨none, none⟩

/-- C9: the streak the hook exposes equals `computeStreak` over
`filterCompleted tasks`, and a task violating the data-model invariant in
either direction (`completed_at` set while the status is not done, or
status done with `completed_at` null) never contributes to it. -/
theorem hookStreak_filterCompleted (tasks : List Task) (now : Int) :
    hookStreak tasks now = computeStreak (filterCompleted tasks) now
    ∧ ∀ (l1 l2 : List Task) (t : Task),
        (t.status ≠ "done" ∨ t.completed_at = none) →
        hookStreak (l1 ++ t :: l2) now = hookStreak (l1 ++ l2) now := by
  refine ⟨rfl, ?_⟩
  intro l1 l2 t ht
  unfold hookStreak
  have hdrop : filterCompleted (l1 ++ t :: l2) = filterCompleted (l1 ++ l2) := by
    have hcond : (t.status == "done" && t.completed_at.isSome) = false := by
      rcases ht with h | h <;> simp [h]
    unfold filterCompleted
    rw [List.filter_append, List.filter_append, List.filter_cons, hcond]
    simp
  rw [hdrop]

/-- C9 witness: a task with `status = "done"` but `completed_at = null`
does not contribute to the displayed streak. -/
theorem hookStreak_filterCompleted_witness :
    hookStreak ([] ++ ⟨"t1", "u1", "Sample", none, "done", "medium", none, none, 0⟩ :: []) 0
      = hookStreak ([] ++ []) 0 :=
  (hookStreak_filterCompleted [] 0).2 [] []
    ⟨"t1", "u1", "Sample", none, "done", "medium", none, none, 0⟩ (Or.inr rfl)


/-- C3 (amended): on a failed store call, `addTask` and `updateTask`
restore the exact pre-operation task list and surface an error;
`deleteTask` restores the snapshot task at the *front* of the list, so its
rollback is a permutation of the pre-operation list (same tasks, possibly
reordered), with the error surfaced. -/
theorem rollback_on_failure (s : SyncState) :
    (∀ (uid tempId : String) (nowMs : Int) (newTask : NewTask) (reply : InsertResult),
        (∀ t ∈ s.tasks, t.id ≠ tempId) →
        (reply.error.isSome ∨ reply.data = none) →
        (addTask (some uid) tempId nowMs newTask reply s).tasks = s.tasks
        ∧ (addTask (some uid) tempId nowMs newTask reply s).error.isSome)
    ∧ (∀ (id : String) (updates : TaskUpdate) (msg : String),
        (s.tasks.map Task.id).Nodup →
        (updateTask id updates (some msg) s).tasks = s.tasks
        ∧ ((∃ t ∈ s.tasks, t.id = id) →
            (updateTask id updates (some msg) s).error = some msg))
    ∧ (∀ (id msg : String),
        (s.tasks.map Task.id).Nodup →
        (deleteTask id (some msg) s).tasks.Perm s.tasks
        ∧ ((∃ t ∈ s.tasks, t.id = id) →
            (deleteTask id (some msg) s).error = some msg)) := by
  refine ⟨?_, ?_, ?_⟩
  · intro uid tempId nowMs newTask reply hfresh hfail
    have hfilter :
        ∀ (opt : Task), opt.id = tempId →
          ((opt :: s.tasks).filter fun t => t.id != tempId) = s.tasks := by
      intro opt hopt
      rw [List.filter_cons_of_neg (by simp [hopt])]
      apply List.filter_eq_self.mpr
      intro t ht
      simpa using hfresh t ht
    unfold addTask
    rcases hre : reply.error with _ | msg
    · rcases hrd : reply.data with _ | confirmed
      · exact ⟨hfilter _ rfl, rfl⟩
      · rw [hre, hrd] at hfail
        simp at hfail
    · exact ⟨hfilter _ rfl, rfl⟩
  · intro id updates msg hnodup
    unfold updateTask
    rcases hfind : s.tasks.find? (fun t => t.id == id) with _ | previous <;> rw [hfind]
    · refine ⟨rfl, ?_⟩
      rintro ⟨t, ht, hid⟩
      have := List.find?_eq_none.mp hfind t ht
      simp [hid] at this
    · have hprev_mem : previous ∈ s.tasks := List.mem_of_find?_eq_some hfind
      have hprev_id : previous.id = id := by
        have := List.find?_some hfind
        simpa using this
      refine ⟨?_, fun _ => rfl⟩
      change List.map _ (List.map _ _) = s.tasks
      rw [List.map_map]
      conv_rhs => rw [← List.map_id s.tasks]
      apply List.map_congr_left
      intro t ht
      by_cases hid : t.id = id
      · have ht_eq : t = previous :=
          eq_of_mem_of_nodup_ids hnodup ht hprev_mem (by rw [hid, hprev_id])
        simp [Function.comp, hid, applyUpdate_id, ← ht_eq]
      · simp [Function.comp, hid]
  · intro id msg hnodup
    unfold deleteTask
    rcases hfind : s.tasks.find? (fun t => t.id == id) with _ | previous <;> rw [hfind]
    · refine ⟨List.Perm.refl _, ?_⟩
      rintro ⟨t, ht, hid⟩
      have := List.find?_eq_none.mp hfind t ht
      simp [hid] at this
    · have hprev_mem : previous ∈ s.tasks := List.mem_of_find?_eq_some hfind
      have hprev_id : previous.id = id := by
        have := List.find?_some hfind
        simpa using this
      refine ⟨?_, fun _ => rfl⟩
      change List.Perm (previous :: List.filter _ s.tasks) s.tasks
      obtain ⟨l1, l2, hsplit⟩ := List.append_of_mem hprev_mem
      rw [hsplit] at hnodup ⊢
      have hnodup2 : (previous.id :: (l1 ++ l2).map Task.id).Nodup := by
        have h' : ((l1 ++ previous :: l2).map Task.id).Nodup := hnodup
        rw [List.map_append, List.map_cons] at h'
        have h2 := List.nodup_middle.mp h'
        simpa [List.map_append] using h2
      have hnotmem : previous.id ∉ (l1 ++ l2).map Task.id :=
        (List.nodup_cons.mp hnodup2).1
      have hfilter : ((l1 ++ previous :: l2).filter fun t => t.id != id)
          = l1 ++ l2 := by
        rw [List.filter_append, List.filter_cons_of_neg (by simp [hprev_id])]
        rw [List.filter_eq_self.mpr, List.filter_eq_self.mpr]
        · intro t ht
          have : t.id ≠ previous.id := by
            intro hbad
            exact hnotmem (hbad ▸ List.mem_map_of_mem Task.id
              (List.mem_append_right l1 ht))
          simpa [hprev_id] using hprev_id ▸ this
        · intro t ht
          have : t.id ≠ previous.id := by
            intro hbad
            exact hnotmem (hbad ▸ List.mem_map_of_mem Task.id
              (List.mem_append_left l2 ht))
          simpa [hprev_id] using hprev_id ▸ this
      rw [hfilter]
      exact List.perm_middle.symm

/-- C3 counterexample: a failing `deleteTask` re-inserts the snapshot at
the front, so the restored list is not the pre-operation list when the
deleted task was not first. -/
theorem deleteTask_rollback_not_snapshot :
    (deleteTask "b" (some "boom")
        ⟨[⟨"a", "u1", "Task A", none, "todo", "medium", none, none, 0⟩,
          ⟨"b", "u1", "Task B", none, "todo", "medium", none, none, 0⟩], none⟩).tasks
      ≠ [⟨"a", "u1", "Task A", none, "todo", "medium", none, none, 0⟩,
          ⟨"b", "u1", "Task B", none, "todo", "medium", none, none, 0⟩] := by
  decide

/-- C3 witness: a failing `updateTask` leaves the list exactly as before
the call and surfaces the store's error message. -/
theorem rollback_on_failure_witness :
    (updateTask "a" ⟨none, some "Task A2", none, none, none, none, none⟩ (some "down")
        ⟨[⟨"a", "u1", "Task A", none, "todo", "medium", none, none, 0⟩,
          ⟨"b", "u1", "Task B", none, "todo", "medium", none, none, 0⟩], none⟩).tasks
      = [⟨"a", "u1", "Task A", none, "todo", "medium", none, none, 0⟩,
          ⟨"b", "u1", "Task B", none, "todo", "medium", none, none, 0⟩]
    ∧ (updateTask "a" ⟨none, some "Task A2", none, none, none, none, none⟩ (some "down")
        ⟨[⟨"a", "u1", "Task A", none, "todo", "medium", none, none, 0⟩,
          ⟨"b", "u1", "Task B", none, "todo", "medium", none, none, 0⟩], none⟩).error
      = some "down" := by
  have h := (rollback_on_failure
    ⟨[⟨"a", "u1", "Task A", none, "todo", "medium", none, none, 0⟩,
      ⟨"b", "u1", "Task B", none, "todo", "medium", none, none, 0⟩], none⟩).2.1
    "a" ⟨none, some "Task A2", none, none, none, none, none⟩ "down" (by decide)
  exact ⟨h.1, h.2 ⟨⟨"a", "u1", "Task A", none, "todo", "medium", none, none, 0⟩,
    by decide, rfl⟩⟩

end Vibetracker
